import Mathlib

/-!
Shallow embedding of `src/ratings.c` (movie-rating demo): a read-only
in-memory movie catalog, a case-insensitive keyword filter over the
description field, a capacity-bounded result collector, a descending
rating sort, a formatted report, and a transition-system model of the
semaphore-bounded concurrent workers with a mutex-serialized output
channel.

Conventions of the embedding:
* C strings are `List Char` (no interior NUL; the terminating NUL is
  implicit).  `to_lower_copy dst_sz src` models the C helper writing at
  most `dst_sz - 1` characters plus the NUL.
* `float popularity_rating` is modelled as `ℚ`; every rating in the
  hard-coded catalog (and any value of the form k/10) is exactly
  representable in IEEE single precision and `qsort`'s comparator only
  compares, so rationals are a faithful model of the comparisons.
* `strstr(hay, need) != NULL` is modelled by the executable scanner
  `strstrFound`, proved equivalent to `List.IsInfix`.
* `qsort` with comparator `cmp_result_desc` is modelled by
  `List.insertionSort` over the relation `cmp_result_desc a b ≤ 0`;
  `qsort` guarantees only some comparator-sorted permutation, and the
  order of tied elements is unspecified in both.
* the threads / semaphore / print mutex are modelled by a labelled
  transition system whose steps mirror the statements of
  `search_worker`, with each mutex-guarded `printf` of a report block a
  separate step so that interleaving of output lines is represented.
-/

namespace MovieRating

/-- Buffer-size constants from ratings.c. -/
def MAX_TITLE_LEN : Nat := 100

def MAX_DIRECTOR_LEN : Nat := 100

def MAX_DATE_LEN : Nat := 20

def MAX_DESC_LEN : Nat := 500

def MAX_MOVIES : Nat := 30

def MAX_RESULTS : Nat := 30

def MAX_KEYWORD_LEN : Nat := 64

/-- The `Movie` record of ratings.c.  Text fields are the C char-array
fields; `popularity_rating` is the `float` field, modelled as `ℚ`. -/
structure Movie where
  title : String
  director : String
  release_date : String
  popularity_rating : ℚ
  description : String
deriving DecidableEq, Repr

instance : Inhabited Movie := ⟨⟨"", "", "", 0, ""⟩⟩

/-- Model of C `tolower` in the C locale: only ASCII uppercase letters
are mapped down; every other character is unchanged. -/
def lowerChar (c : Char) : Char :=
  if 'A' ≤ c ∧ c ≤ 'Z' then Char.ofNat (c.toNat + 32) else c

/-- Model of `to_lower_copy(dst, dst_sz, src)`: the copy loop runs while
`i + 1 < dst_sz`, so at most `dst_sz - 1` characters are kept, each
lowered. -/
def to_lower_copy (dst_sz : Nat) (src : List Char) : List Char :=
  (src.take (dst_sz - 1)).map lowerChar

/-- Does `need` occur at the head of `hay`?  (The inner loop of a
textbook `strstr`.) -/
def leadMatch : List Char → List Char → Bool
  | _, [] => true
  | [], _ :: _ => false
  | c :: t, d :: k => c = d && leadMatch t k

/-- Executable model of `strstr(hay, need) != NULL`: scan every suffix
of `hay` for `need` at its head. -/
def strstrFound : List Char → List Char → Bool
  | [], need => leadMatch [] need
  | c :: t, need => leadMatch (c :: t) need || strstrFound t need

/-- Model of `contains_keyword_ci(text, keyword)`: reject the empty
keyword, lower-case (and truncate) both strings into their fixed-size
buffers, then look for the keyword as a substring. -/
def contains_keyword_ci (text keyword : List Char) : Bool :=
  match keyword with
  | [] => false
  | _ :: _ =>
      strstrFound (to_lower_copy MAX_DESC_LEN text)
        (to_lower_copy MAX_KEYWORD_LEN keyword)

/-- The filter applied by `search_movies_and_print` at line 79 of
ratings.c: the keyword is matched against the description field only. -/
def movieMatches (m : Movie) (kw : List Char) : Bool :=
  contains_keyword_ci m.description.data kw

/-- The `ResultItem` record of ratings.c: a catalog index plus the
rating captured at match time. -/
structure ResultItem where
  idx : Nat
  rating : ℚ
deriving DecidableEq, Repr

/-- Model of `cmp_result_desc`: returns 1 when the first rating is
smaller (sorts later), -1 when larger, 0 on ties — a descending
comparator. -/
def cmp_result_desc (a b : ResultItem) : Int :=
  if a.rating < b.rating then 1
  else if b.rating < a.rating then -1
  else 0

/-- The "sorts no later than" relation induced by `cmp_result_desc`:
`a` may precede `b` exactly when the comparator does not order `a`
strictly after `b`. -/
def rOrder (a b : ResultItem) : Prop := cmp_result_desc a b ≤ 0

theorem rOrder_iff (a b : ResultItem) : rOrder a b ↔ b.rating ≤ a.rating := by
  unfold rOrder cmp_result_desc
  rcases lt_trichotomy a.rating b.rating with h | h | h
  · simp [h, not_le.mpr h]
  · simp [h, lt_irrefl]
  · simp [not_lt.mpr h.le, h, h.le]

instance : DecidableRel rOrder := fun a b =>
  inferInstanceAs (Decidable (cmp_result_desc a b ≤ 0))

instance : IsTotal ResultItem rOrder :=
  ⟨fun a b => by rw [rOrder_iff, rOrder_iff]; exact le_total _ _⟩

instance : IsTrans ResultItem rOrder :=
  ⟨fun a b c hab hbc => by
    rw [rOrder_iff] at *
    exact le_trans hbc hab⟩

/-- The scan loop of `search_movies_and_print` (lines 78–86): walk the
catalog in order, and for each matching record append an item — but
only while fewer than `MAX_RESULTS` items have been collected; further
matches are skipped silently and the scan continues. -/
def scan_loop (kw : List Char) : List (Nat × Movie) → Nat → List ResultItem
  | [], _ => []
  | (i, m) :: rest, cnt =>
      if movieMatches m kw then
        if cnt < MAX_RESULTS then
          ⟨i, m.popularity_rating⟩ :: scan_loop kw rest (cnt + 1)
        else scan_loop kw rest cnt
      else scan_loop kw rest cnt

/-- The unsorted result set collected by the scan loop, starting from
an empty result buffer. -/
def scanResults (movies : List Movie) (kw : List Char) : List ResultItem :=
  scan_loop kw movies.enum 0

/-- The sorted result list: the collected items sorted by the
descending-rating comparator (model of the `qsort` call at line 89). -/
def searchResults (movies : List Movie) (kw : List Char) : List ResultItem :=
  List.insertionSort rOrder (scanResults movies kw)

/-- Sixty equals signs: the block frame line of the report. -/
def eqLine : String := String.mk (List.replicate 60 '=')

/-- Sixty dashes: the header/body separator line of the report. -/
def dashLine : String := String.mk (List.replicate 60 '-')

/-- Model of printf %-Ns: pad on the right with spaces to width `w`
(printf never truncates here). -/
def padRight (s : String) (w : Nat) : String :=
  s ++ String.mk (List.replicate (w - s.length) ' ')

/-- Model of printf %2d for a nonnegative value. -/
def pad2 (n : Nat) : String :=
  if n < 10 then " " ++ toString n else toString n

/-- Model of printf %.1f: round to tenths and print one decimal. -/
def fmtRating (q : ℚ) : String :=
  let t : Int := round (q * 10)
  let n := t.natAbs
  (if t < 0 then "-" else "") ++ toString (n / 10) ++ "." ++ toString (n % 10)

/-- One body line of the report (the printf at lines 104–105). -/
def resultLine (pos : Nat) (m : Movie) : String :=
  pad2 pos ++ ") " ++ padRight m.title 28 ++ " | " ++ padRight m.director 18 ++
    " | " ++ m.release_date ++ "  (" ++ fmtRating m.popularity_rating ++ ")"

/-- The lines of one report block (the printf calls at lines 94–109):
a leading blank line and frame, the keyword/count header, the sort
description, a dash separator, then either `(No matches found)` or one
line per ranked match, and the closing frame. -/
def report_lines (movies : List Movie) (kw : String) (results : List ResultItem) :
    List String :=
  ["", eqLine,
    "Keyword: \x22" ++ kw ++ "\x22 | Matches: " ++ toString results.length,
    "Sorted by popularity rating (descending)",
    dashLine] ++
  (if results.length = 0 then ["(No matches found)"]
   else results.enum.map fun p => resultLine (p.1 + 1) (movies.getD p.2.idx default)) ++
  [eqLine]

/-- The whole report emitted by `search_movies_and_print` for one
keyword: scan, sort, format. -/
def search_report (movies : List Movie) (kw : String) : List String :=
  report_lines movies kw (searchResults movies kw.data)

/-- The hard-coded sample catalog of `load_movies_hardcoded`. -/
def load_movies_hardcoded : List Movie :=
  [⟨"How to Train Your Dragon", "Chris Sanders", "2010-03-26", mkRat 925 10,
      "A young Viking befriends a dragon and changes his village forever."⟩,
   ⟨"Dragonheart", "Rob Cohen", "1996-05-31", mkRat 710 10,
      "A knight teams up with a dragon to overthrow a tyrant king."⟩,
   ⟨"Spirited Away", "Hayao Miyazaki", "2001-07-20", mkRat 970 10,
      "A girl enters a spirit world filled with magic, mystery, and courage."⟩,
   ⟨"Interstellar", "Christopher Nolan", "2014-11-07", mkRat 890 10,
      "A space mission searches for a new home for humanity beyond Earth."⟩,
   ⟨"The Dark Knight", "Christopher Nolan", "2008-07-18", mkRat 940 10,
      "A crime saga where Gotham faces chaos and a villain tests the hero."⟩,
   ⟨"Inception", "Christopher Nolan", "2010-07-16", mkRat 910 10,
      "A thief enters dreams to plant an idea; reality becomes uncertain."⟩,
   ⟨"The Lord of the Rings", "Peter Jackson", "2001-12-19", mkRat 960 10,
      "An epic war against darkness with magic, courage, and sacrifice."⟩,
   ⟨"Love Actually", "Richard Curtis", "2003-11-14", mkRat 780 10,
      "Multiple stories of love unfold during the holiday season."⟩,
   ⟨"War Horse", "Steven Spielberg", "2011-12-25", mkRat 750 10,
      "A boy and his horse are separated by war and struggle to reunite."⟩,
   ⟨"The Girl with the Dragon Tattoo", "David Fincher", "2011-12-21", mkRat 860 10,
      "A journalist and hacker investigate a mystery with dark secrets."⟩]

/-! Correctness of the `strstr` model. -/

theorem leadMatch_iff (need hay : List Char) : leadMatch hay need = true ↔ need <+: hay := by
  induction need generalizing hay with
  | nil => cases hay <;> simp [leadMatch, List.nil_prefix]
  | cons d k ih =>
    cases hay with
    | nil => simp [leadMatch, List.prefix_nil]
    | cons c t =>
        simp only [leadMatch, Bool.and_eq_true, decide_eq_true_eq, List.cons_prefix_cons, ih]
        constructor <;> rintro ⟨h1, h2⟩ <;> exact ⟨h1.symm, h2⟩

theorem strstrFound_iff (hay need : List Char) :
    strstrFound hay need = true ↔ need <:+: hay := by
  induction hay with
  | nil => cases need <;> simp [strstrFound, leadMatch, List.infix_nil]
  | cons c t ih => simp [strstrFound, List.infix_cons_iff, leadMatch_iff, ih]

/-- The scan loop collects exactly the first `MAX_RESULTS - cnt` matching
records, in catalog order. -/
theorem scan_loop_eq (kw : List Char) (l : List (Nat × Movie)) (cnt : Nat) :
    scan_loop kw l cnt =
      ((l.filter fun p => movieMatches p.2 kw).map
        fun p => (⟨p.1, p.2.popularity_rating⟩ : ResultItem)).take (MAX_RESULTS - cnt) := by
  induction l generalizing cnt with
  | nil => simp [scan_loop]
  | cons p rest ih =>
    obtain ⟨i, m⟩ := p
    by_cases hm : movieMatches m kw
    · by_cases hc : cnt < MAX_RESULTS
      · have hsub : MAX_RESULTS - cnt = (MAX_RESULTS - (cnt + 1)) + 1 := by omega
        simp only [scan_loop, hm, if_true, hc, ih, List.filter_cons_of_pos, List.map_cons,
          hsub, List.take_succ_cons]
      · have hsub : MAX_RESULTS - cnt = 0 := by omega
        simp only [scan_loop, hm, if_true, hc, if_false, ih, List.filter_cons_of_pos,
          List.map_cons, hsub, List.take_zero]
    · rw [Bool.not_eq_true] at hm
      simp [scan_loop, hm, ih]

theorem scanResults_eq (movies : List Movie) (kw : List Char) :
    scanResults movies kw =
      ((movies.enum.filter fun p => movieMatches p.2 kw).map
        fun p => (⟨p.1, p.2.popularity_rating⟩ : ResultItem)).take MAX_RESULTS := by
  simpa using scan_loop_eq kw movies.enum 0

/-- C5: for every record, the empty-string keyword never matches: the
guard at line 46 of ratings.c rejects it before any substring search. -/
theorem c5_empty_keyword_never_matches (m : Movie) : movieMatches m [] = false := rfl

/-- C3 counterexample: the claim quantifies over every keyword, but for
the empty keyword the filter returns false even though the (empty)
case-folded keyword does occur as a substring of the case-folded
description, so the stated iff fails at the first sample record with
keyword `""`. -/
theorem c3_counterexample :
    ¬ (movieMatches (load_movies_hardcoded.getD 0 default) [] = true ↔
        (([] : List Char).take (MAX_KEYWORD_LEN - 1)).map lowerChar <:+:
          ((load_movies_hardcoded.getD 0 default).description.data.take
            (MAX_DESC_LEN - 1)).map lowerChar) := by
  decide

/-- C3 (amended): for every record and every nonempty keyword, the
filter returns true iff the case-folded truncated keyword occurs as a
substring of the case-folded truncated description — and the result
depends on the description field only. -/
theorem c3_matches_iff_desc_substring (m : Movie) (kw : List Char) (hk : kw ≠ []) :
    (movieMatches m kw = true ↔
      (kw.take (MAX_KEYWORD_LEN - 1)).map lowerChar <:+:
        (m.description.data.take (MAX_DESC_LEN - 1)).map lowerChar) ∧
    ∀ m' : Movie, m'.description = m.description →
      movieMatches m' kw = movieMatches m kw := by
  constructor
  · cases kw with
    | nil => exact absurd rfl hk
    | cons d k =>
      simp only [movieMatches, contains_keyword_ci, to_lower_copy]
      exact strstrFound_iff _ _
  · intro m' h
    simp [movieMatches, h]

theorem c3_witness :
    ("DRAGON".data ≠ []) ∧
    ((movieMatches (load_movies_hardcoded.getD 1 default) "DRAGON".data = true ↔
        ("DRAGON".data.take (MAX_KEYWORD_LEN - 1)).map lowerChar <:+:
          ((load_movies_hardcoded.getD 1 default).description.data.take
            (MAX_DESC_LEN - 1)).map lowerChar) ∧
      ∀ m' : Movie, m'.description = (load_movies_hardcoded.getD 1 default).description →
        movieMatches m' "DRAGON".data = movieMatches (load_movies_hardcoded.getD 1 default) "DRAGON".data) :=
  ⟨by decide, c3_matches_iff_desc_substring (load_movies_hardcoded.getD 1 default)
    "DRAGON".data (by decide)⟩

/-- C1 counterexample: on the sample catalog the keyword `"dragon"`
matches only two records, because the filter inspects descriptions
only and the description of "The Girl with the Dragon Tattoo" (catalog
position 9) does not contain "dragon"; the rating sequence is
[92.5, 71.0], not the claimed [92.5, 86.0, 71.0]. -/
theorem c1_counterexample :
    (searchResults load_movies_hardcoded ("dragon".data)).map ResultItem.rating
        = [mkRat 925 10, mkRat 710 10] ∧
    (searchResults load_movies_hardcoded ("dragon".data)).map ResultItem.rating
        ≠ [mkRat 925 10, mkRat 860 10, mkRat 710 10] ∧
    movieMatches (load_movies_hardcoded.getD 9 default) ("dragon".data) = false := by
  decide

/-- C1 (amended): on the sample hardcoded catalog, searching for the
keyword "dragon" (case-insensitively, against descriptions) yields
exactly the two records "How to Train Your Dragon" (rating 92.5) and
"Dragonheart" (71.0), in the order 92.5, 71.0; "The Girl with the
Dragon Tattoo" is not among the results since its description does not
contain "dragon". -/
theorem c1_dragon_search :
    (searchResults load_movies_hardcoded ("dragon".data)).map
        (fun r => ((load_movies_hardcoded.getD r.idx default).title, r.rating)) =
      [("How to Train Your Dragon", mkRat 925 10), ("Dragonheart", mkRat 710 10)] ∧
    ∀ r ∈ searchResults load_movies_hardcoded ("dragon".data), r.idx ≠ 9 := by
  decide

/-- C6: the per-search result set never exceeds `MAX_RESULTS`; the
collected set is exactly the first `MAX_RESULTS` matches in catalog
order (later matches are silently dropped) and the scan still runs to
the end of the catalog. -/
theorem c6_capacity_bound (movies : List Movie) (kw : List Char) :
    (searchResults movies kw).length ≤ MAX_RESULTS ∧
    scanResults movies kw =
      ((movies.enum.filter fun p => movieMatches p.2 kw).map
        fun p => (⟨p.1, p.2.popularity_rating⟩ : ResultItem)).take MAX_RESULTS := by
  refine ⟨?_, scanResults_eq movies kw⟩
  have hlen : (searchResults movies kw).length = (scanResults movies kw).length :=
    (List.perm_insertionSort rOrder _).length_eq
  rw [hlen, scanResults_eq]
  exact le_trans (List.length_take_le _ _) le_rfl

/-- C4: for every catalog and keyword, the rating sequence of the
emitted (sorted) result list is non-increasing: every earlier entry's
rating is at least every later one's. -/
theorem c4_ratings_nonincreasing (movies : List Movie) (kw : List Char) :
    List.Sorted (fun a b : ℚ => b ≤ a)
      ((searchResults movies kw).map ResultItem.rating) := by
  have hs : List.Sorted rOrder (searchResults movies kw) :=
    List.sorted_insertionSort rOrder _
  exact List.Pairwise.map _ (fun a b hab => (rOrder_iff a b).mp hab) hs

/-- C10: soundness, distinctness and (below capacity) completeness of
the result list: every entry points at a valid catalog position whose
description matches the keyword and carries that record's stored
rating; positions are pairwise distinct; and when the number of
matching records fits the result capacity, every matching position
appears in the list (with distinctness: exactly once). -/
theorem c10_results_sound_complete (movies : List Movie) (kw : List Char) :
    (∀ r ∈ searchResults movies kw,
        ∃ m, movies.get? r.idx = some m ∧ movieMatches m kw = true ∧
          r.rating = m.popularity_rating) ∧
    ((searchResults movies kw).map ResultItem.idx).Nodup ∧
    ((movies.enum.filter fun p => movieMatches p.2 kw).length ≤ MAX_RESULTS →
      ∀ i m, movies.get? i = some m → movieMatches m kw = true →
        i ∈ (searchResults movies kw).map ResultItem.idx) := by
  have hperm : (searchResults movies kw).Perm (scanResults movies kw) :=
    List.perm_insertionSort rOrder _
  have hscan := scanResults_eq movies kw
  refine ⟨?_, ?_, ?_⟩
  · intro r hr
    have hr2 : r ∈ scanResults movies kw := hperm.mem_iff.mp hr
    rw [hscan] at hr2
    have hr3 := List.mem_of_mem_take hr2
    obtain ⟨p, hpF, hpr⟩ := List.mem_map.mp hr3
    have hpe := List.mem_filter.mp hpF
    refine ⟨p.2, ?_, hpe.2, ?_⟩
    · have hget := List.mem_enum_iff_get?.mp hpe.1
      rw [← hpr]
      exact hget
    · rw [← hpr]
  · have h1 : ((searchResults movies kw).map ResultItem.idx).Perm
        ((scanResults movies kw).map ResultItem.idx) := hperm.map _
    rw [h1.nodup_iff, hscan]
    have s1 : ((((movies.enum.filter fun p => movieMatches p.2 kw).map
          fun p => (⟨p.1, p.2.popularity_rating⟩ : ResultItem)).take MAX_RESULTS).map
            ResultItem.idx).Sublist
        ((movies.enum.filter fun p => movieMatches p.2 kw).map Prod.fst) := by
      have t1 := (List.take_sublist MAX_RESULTS
        ((movies.enum.filter fun p => movieMatches p.2 kw).map
          fun p => (⟨p.1, p.2.popularity_rating⟩ : ResultItem))).map ResultItem.idx
      simpa [List.map_map, Function.comp] using t1
    have s2 : ((movies.enum.filter fun p => movieMatches p.2 kw).map Prod.fst).Sublist
        (movies.enum.map Prod.fst) := (List.filter_sublist _).map _
    exact (s1.trans s2).nodup (by rw [List.enum_map_fst]; exact List.nodup_range _)
  · intro hlen i m hget hmatch
    have hmem : (i, m) ∈ movies.enum := List.mem_enum_iff_get?.mpr hget
    have hf : (i, m) ∈ movies.enum.filter fun p => movieMatches p.2 kw :=
      List.mem_filter.mpr ⟨hmem, hmatch⟩
    have hmk : (⟨i, m.popularity_rating⟩ : ResultItem) ∈ scanResults movies kw := by
      rw [hscan, List.take_of_length_le]
      · exact List.mem_map.mpr ⟨(i, m), hf, rfl⟩
      · rw [List.length_map]
        exact hlen
    have hsr : (⟨i, m.popularity_rating⟩ : ResultItem) ∈ searchResults movies kw :=
      hperm.mem_iff.mpr hmk
    exact List.mem_map.mpr ⟨_, hsr, rfl⟩

theorem c10_witness :
    0 ∈ (searchResults load_movies_hardcoded ("dragon".data)).map ResultItem.idx :=
  (c10_results_sound_complete load_movies_hardcoded ("dragon".data)).2.2 (by decide) 0
    (load_movies_hardcoded.getD 0 default) (by decide) (by decide)

/-- C9: a keyword with zero description matches still produces a full
report block: the header line shows `Matches: 0` and the body is the
single line `(No matches found)`, between the usual frame lines — the
zero-result outcome is an ordinary report, not an error. -/
theorem c9_zero_matches_report (movies : List Movie) (kw : String)
    (h : scanResults movies kw.data = []) :
    search_report movies kw =
      ["", eqLine,
        "Keyword: \x22" ++ kw ++ "\x22 | Matches: " ++ toString (0 : Nat),
        "Sorted by popularity rating (descending)", dashLine,
        "(No matches found)", eqLine] := by
  unfold search_report searchResults
  rw [h]
  simp [report_lines]

theorem c9_witness :
    search_report load_movies_hardcoded "xyzzy" =
      ["", eqLine,
        "Keyword: \x22" ++ "xyzzy" ++ "\x22 | Matches: " ++ toString (0 : Nat),
        "Sorted by popularity rating (descending)", dashLine,
        "(No matches found)", eqLine] :=
  c9_zero_matches_report load_movies_hardcoded "xyzzy" (by decide)

/-!
Transition-system model of the concurrent part of ratings.c.

One worker (`search_worker`) moves through the phases below, mirroring
the statement sequence at lines 119–146: log a waiting line (under the
print mutex), `sem_wait` on the counting semaphore, log an acquired
line, run the search, print the report block line by line while holding
the print mutex, log a finished line, `sem_post`.  Each mutex-guarded
single-line diagnostic printf is one atomic step (the mutex is held for
exactly that line); the report block is printed one line per step with
the mutex held throughout, so interleaving of output lines by other
workers is representable exactly where the mutex allows it.
-/

/-- Phase of one worker: `created` before any statement ran,
`loggedWait` after the waiting log line, `admitted` after `sem_wait`,
`loggedAcq` after the acquired log line (the worker is searching),
`printing j` while holding the print mutex with `j` lines of its
report block already printed, `reported` after releasing the mutex,
`loggedFin` after the finished log line, `done` after `sem_post`. -/
inductive Phase
  | created
  | loggedWait
  | admitted
  | loggedAcq
  | printing (j : Nat)
  | reported
  | loggedFin
  | done
deriving DecidableEq, Repr

/-- One line of process output: a worker's diagnostic lines, or line
`j` of a worker's report block. -/
inductive OutLine
  | diagWaiting (w : Nat)
  | diagAcquired (w : Nat)
  | blockLine (w : Nat) (j : Nat)
  | diagFinished (w : Nat)
deriving DecidableEq, Repr

/-- Global state: the semaphore value, the holder of the print mutex
(if any), the phase of every worker, and the output lines emitted so
far. -/
structure SysState where
  sem : Nat
  lock : Option Nat
  ws : List Phase
  out : List OutLine
deriving DecidableEq, Repr

/-- One interleaving step of the program, for a system whose worker
`i` prints a report block of `blen i` lines.  Guards mirror the
blocking behavior of `sem_wait` (needs a positive count) and
`pthread_mutex_lock` (needs a free mutex). -/
inductive Step (blen : Nat → Nat) : SysState → SysState → Prop
  | logWait (s : SysState) (i : Nat) :
      s.ws.get? i = some Phase.created → s.lock = none →
      Step blen s ⟨s.sem, none, s.ws.set i Phase.loggedWait, s.out ++ [OutLine.diagWaiting i]⟩
  | acquireSem (s : SysState) (i : Nat) :
      s.ws.get? i = some Phase.loggedWait → 0 < s.sem →
      Step blen s ⟨s.sem - 1, s.lock, s.ws.set i Phase.admitted, s.out⟩
  | logAcq (s : SysState) (i : Nat) :
      s.ws.get? i = some Phase.admitted → s.lock = none →
      Step blen s ⟨s.sem, none, s.ws.set i Phase.loggedAcq, s.out ++ [OutLine.diagAcquired i]⟩
  | lockPrint (s : SysState) (i : Nat) :
      s.ws.get? i = some Phase.loggedAcq → s.lock = none →
      Step blen s ⟨s.sem, some i, s.ws.set i (Phase.printing 0), s.out⟩
  | printLine (s : SysState) (i : Nat) (j : Nat) :
      s.ws.get? i = some (Phase.printing j) → s.lock = some i → j < blen i →
      Step blen s ⟨s.sem, some i, s.ws.set i (Phase.printing (j + 1)),
        s.out ++ [OutLine.blockLine i j]⟩
  | unlockPrint (s : SysState) (i : Nat) :
      s.ws.get? i = some (Phase.printing (blen i)) → s.lock = some i →
      Step blen s ⟨s.sem, none, s.ws.set i Phase.reported, s.out⟩
  | logFin (s : SysState) (i : Nat) :
      s.ws.get? i = some Phase.reported → s.lock = none →
      Step blen s ⟨s.sem, none, s.ws.set i Phase.loggedFin, s.out ++ [OutLine.diagFinished i]⟩
  | releaseSem (s : SysState) (i : Nat) :
      s.ws.get? i = some Phase.loggedFin →
      Step blen s ⟨s.sem + 1, s.lock, s.ws.set i Phase.done, s.out⟩

/-- Initial state: the semaphore holds its full capacity `K` (the
`sem_init(&g_db_sem, 0, 5)` call with the demo default 5), the print
mutex is free, all `n` workers are freshly created, nothing printed. -/
def initState (K n : Nat) : SysState :=
  ⟨K, none, List.replicate n Phase.created, []⟩

/-- States reachable by interleaving worker steps from the initial
state. -/
inductive Reachable (K : Nat) (blen : Nat → Nat) (n : Nat) : SysState → Prop
  | refl : Reachable K blen n (initState K n)
  | tail {s t : SysState} : Reachable K blen n s → Step blen s t → Reachable K blen n t

/-- Does a worker in this phase hold a semaphore permit?  A permit is
held from the return of `sem_wait` to the call of `sem_post`. -/
def holdsPermit : Phase → Bool
  | Phase.admitted | Phase.loggedAcq | Phase.printing _ | Phase.reported
  | Phase.loggedFin => true
  | Phase.created | Phase.loggedWait | Phase.done => false

/-- Is a worker in this phase inside the Searching or Reporting states
of the spec state machine (running the filter/rank, or emitting the
report)? -/
def searchingOrReporting : Phase → Bool
  | Phase.loggedAcq | Phase.printing _ => true
  | _ => false

/-- Has this phase completed the emission of its report block? -/
def reportDone : Phase → Bool
  | Phase.reported | Phase.loggedFin | Phase.done => true
  | _ => false

/-- Updating one known element shifts `countP` by the predicate values
of the old and new elements. -/
theorem countP_set_balance {α : Type} (p : α → Bool) :
    ∀ (l : List α) (i : Nat) (a b : α), l.get? i = some b →
      (l.set i a).countP p + (if p b then 1 else 0) =
        l.countP p + (if p a then 1 else 0)
  | [], i, a, b, h => by simp at h
  | c :: t, 0, a, b, h => by
      simp only [List.get?] at h
      injection h with h
      subst h
      simp only [List.set, List.countP_cons]
      omega
  | c :: t, i + 1, a, b, h => by
      simp only [List.get?] at h
      have hb := countP_set_balance p t i a b h
      simp only [List.set, List.countP_cons]
      omega

/-- Semaphore accounting invariant: the free permits plus the permits
held by workers always equal the configured capacity `K`. -/
theorem permit_accounting {K : Nat} {blen : Nat → Nat} {n : Nat} {s : SysState}
    (h : Reachable K blen n s) : s.sem + s.ws.countP holdsPermit = K := by
  induction h with
  | refl =>
      have hz : (List.replicate n Phase.created).countP holdsPermit = 0 :=
        List.countP_eq_zero.mpr fun a ha => by
          rw [List.eq_of_mem_replicate ha]; simp [holdsPermit]
      simp [initState, hz]
  | tail hr hstep ih =>
      rename_i s t
      cases hstep with
      | logWait i h1 h2 =>
          have hb := countP_set_balance holdsPermit s.ws i Phase.loggedWait Phase.created h1
          simp [holdsPermit] at hb
          simp only []
          omega
      | acquireSem i h1 h2 =>
          have hb := countP_set_balance holdsPermit s.ws i Phase.admitted Phase.loggedWait h1
          simp [holdsPermit] at hb
          simp only []
          omega
      | logAcq i h1 h2 =>
          have hb := countP_set_balance holdsPermit s.ws i Phase.loggedAcq Phase.admitted h1
          simp [holdsPermit] at hb
          simp only []
          omega
      | lockPrint i h1 h2 =>
          have hb := countP_set_balance holdsPermit s.ws i (Phase.printing 0) Phase.loggedAcq h1
          simp [holdsPermit] at hb
          simp only []
          omega
      | printLine i j h1 h2 h3 =>
          have hb := countP_set_balance holdsPermit s.ws i (Phase.printing (j + 1))
            (Phase.printing j) h1
          simp [holdsPermit] at hb
          simp only []
          omega
      | unlockPrint i h1 h2 =>
          have hb := countP_set_balance holdsPermit s.ws i Phase.reported
            (Phase.printing (blen i)) h1
          simp [holdsPermit] at hb
          simp only []
          omega
      | logFin i h1 h2 =>
          have hb := countP_set_balance holdsPermit s.ws i Phase.loggedFin Phase.reported h1
          simp [holdsPermit] at hb
          simp only []
          omega
      | releaseSem i h1 =>
          have hb := countP_set_balance holdsPermit s.ws i Phase.done Phase.loggedFin h1
          simp [holdsPermit] at hb
          simp only []
          omega

/-- C2: in every reachable state of a system configured with capacity
`K`, at most `K` workers occupy the Searching or Reporting states
simultaneously; moreover every Searching/Reporting phase is a
permit-holding phase (the permit is taken by `sem_wait` before the
search and held through reporting). -/
theorem c2_admission_bound {K : Nat} {blen : Nat → Nat} {n : Nat} {s : SysState}
    (h : Reachable K blen n s) :
    s.ws.countP searchingOrReporting ≤ K ∧
    ∀ p, searchingOrReporting p = true → holdsPermit p = true := by
  refine ⟨?_, ?_⟩
  · have hacc := permit_accounting h
    have hmono : s.ws.countP searchingOrReporting ≤ s.ws.countP holdsPermit :=
      List.countP_mono_left fun x _ hx => by
        cases x <;> simp_all [searchingOrReporting, holdsPermit]
    omega
  · intro p hp
    cases p <;> simp_all [searchingOrReporting, holdsPermit]

/-- C7: in every reachable state in which all workers are done, the
semaphore has recovered its full capacity `K`: every acquired permit
was released, none leaked. -/
theorem c7_no_permit_leak {K : Nat} {blen : Nat → Nat} {n : Nat} {s : SysState}
    (h : Reachable K blen n s) (hall : ∀ p ∈ s.ws, p = Phase.done) :
    s.sem = K := by
  have hacc := permit_accounting h
  have hz : s.ws.countP holdsPermit = 0 :=
    List.countP_eq_zero.mpr fun a ha => by
      rw [hall a ha]; simp [holdsPermit]
  omega

/-! Helper lemmas about `List.set`, suffixes and infixes, for the
print-mutex invariant. -/

theorem get?_set_self {α : Type} {l : List α} {i : Nat} {b : α}
    (h : l.get? i = some b) (a : α) : (l.set i a).get? i = some a := by
  rw [List.get?_set, if_pos rfl, h]
  rfl

theorem get?_set_other {α : Type} (l : List α) (i k : Nat) (a : α) (h : i ≠ k) :
    (l.set i a).get? k = l.get? k := by
  rw [List.get?_set, if_neg h]

theorem suffix_append_one {α : Type} {xs out : List α} (h : xs <:+ out) (z : α) :
    xs ++ [z] <:+ out ++ [z] := by
  obtain ⟨t, rfl⟩ := h
  exact ⟨t, by simp⟩

theorem infix_append_right {α : Type} {xs out : List α} (h : xs <:+: out) (ys : List α) :
    xs <:+: out ++ ys :=
  h.trans (List.prefix_append out ys).isInfix

/-- Print-mutex invariant: (1) a worker that is part-way through
printing its report block holds the mutex, and the lines it has
printed so far are exactly the last lines of the output; (2) a worker
that finished reporting has its whole report block contiguous in the
output. -/
theorem print_invariant {K : Nat} {blen : Nat → Nat} {n : Nat} {s : SysState}
    (h : Reachable K blen n s) :
    (∀ i j, s.ws.get? i = some (Phase.printing j) →
        s.lock = some i ∧ (List.range j).map (OutLine.blockLine i) <:+ s.out) ∧
    (∀ i p, s.ws.get? i = some p → reportDone p = true →
        (List.range (blen i)).map (OutLine.blockLine i) <:+: s.out) := by
  induction h with
  | refl =>
      constructor
      · intro i j hij
        have hmem := List.eq_of_mem_replicate (List.get?_mem hij)
        simp at hmem
      · intro i p hp hd
        have hmem := List.eq_of_mem_replicate (List.get?_mem hp)
        subst hmem
        simp [reportDone] at hd
  | tail hr hstep ih =>
      rename_i s t
      obtain ⟨ih1, ih2⟩ := ih
      cases hstep with
      | logWait i h1 h2 =>
          constructor
          · intro k j hk
            rcases eq_or_ne i k with rfl | hik
            · rw [get?_set_self h1] at hk
              exact absurd hk (by simp)
            · rw [get?_set_other _ _ _ _ hik] at hk
              have := (ih1 k j hk).1
              rw [h2] at this
              exact absurd this (by simp)
          · intro k p hk hd
            rcases eq_or_ne i k with rfl | hik
            · rw [get?_set_self h1] at hk
              injection hk with hk
              subst hk
              simp [reportDone] at hd
            · rw [get?_set_other _ _ _ _ hik] at hk
              exact infix_append_right (ih2 k p hk hd) _
      | acquireSem i h1 h2 =>
          constructor
          · intro k j hk
            rcases eq_or_ne i k with rfl | hik
            · rw [get?_set_self h1] at hk
              exact absurd hk (by simp)
            · rw [get?_set_other _ _ _ _ hik] at hk
              exact ih1 k j hk
          · intro k p hk hd
            rcases eq_or_ne i k with rfl | hik
            · rw [get?_set_self h1] at hk
              injection hk with hk
              subst hk
              simp [reportDone] at hd
            · rw [get?_set_other _ _ _ _ hik] at hk
              exact ih2 k p hk hd
      | logAcq i h1 h2 =>
          constructor
          · intro k j hk
            rcases eq_or_ne i k with rfl | hik
            · rw [get?_set_self h1] at hk
              exact absurd hk (by simp)
            · rw [get?_set_other _ _ _ _ hik] at hk
              have := (ih1 k j hk).1
              rw [h2] at this
              exact absurd this (by simp)
          · intro k p hk hd
            rcases eq_or_ne i k with rfl | hik
            · rw [get?_set_self h1] at hk
              injection hk with hk
              subst hk
              simp [reportDone] at hd
            · rw [get?_set_other _ _ _ _ hik] at hk
              exact infix_append_right (ih2 k p hk hd) _
      | lockPrint i h1 h2 =>
          constructor
          · intro k j hk
            rcases eq_or_ne i k with rfl | hik
            · rw [get?_set_self h1] at hk
              injection hk with hk
              injection hk with hk
              subst hk
              exact ⟨rfl, by simp [List.nil_suffix]⟩
            · rw [get?_set_other _ _ _ _ hik] at hk
              have := (ih1 k j hk).1
              rw [h2] at this
              exact absurd this (by simp)
          · intro k p hk hd
            rcases eq_or_ne i k with rfl | hik
            · rw [get?_set_self h1] at hk
              injection hk with hk
              subst hk
              simp [reportDone] at hd
            · rw [get?_set_other _ _ _ _ hik] at hk
              exact ih2 k p hk hd
      | printLine i j h1 h2 h3 =>
          constructor
          · intro k j' hk
            rcases eq_or_ne i k with rfl | hik
            · rw [get?_set_self h1] at hk
              injection hk with hk
              injection hk with hk
              subst hk
              refine ⟨rfl, ?_⟩
              have hsuf := (ih1 i j h1).2
              rw [List.range_succ, List.map_append]
              exact suffix_append_one hsuf _
            · rw [get?_set_other _ _ _ _ hik] at hk
              have hlk := (ih1 k j' hk).1
              rw [h2] at hlk
              injection hlk with hlk
              exact absurd hlk hik
          · intro k p hk hd
            rcases eq_or_ne i k with rfl | hik
            · rw [get?_set_self h1] at hk
              injection hk with hk
              subst hk
              simp [reportDone] at hd
            · rw [get?_set_other _ _ _ _ hik] at hk
              exact infix_append_right (ih2 k p hk hd) _
      | unlockPrint i h1 h2 =>
          constructor
          · intro k j hk
            rcases eq_or_ne i k with rfl | hik
            · rw [get?_set_self h1] at hk
              exact absurd hk (by simp)
            · rw [get?_set_other _ _ _ _ hik] at hk
              have hlk := (ih1 k j hk).1
              rw [h2] at hlk
              injection hlk with hlk
              exact absurd hlk hik
          · intro k p hk hd
            rcases eq_or_ne i k with rfl | hik
            · rw [get?_set_self h1] at hk
              injection hk with hk
              subst hk
              exact (ih1 i (blen i) h1).2.isInfix
            · rw [get?_set_other _ _ _ _ hik] at hk
              exact ih2 k p hk hd
      | logFin i h1 h2 =>
          constructor
          · intro k j hk
            rcases eq_or_ne i k with rfl | hik
            · rw [get?_set_self h1] at hk
              exact absurd hk (by simp)
            · rw [get?_set_other _ _ _ _ hik] at hk
              have := (ih1 k j hk).1
              rw [h2] at this
              exact absurd this (by simp)
          · intro k p hk hd
            rcases eq_or_ne i k with rfl | hik
            · rw [get?_set_self h1] at hk
              injection hk with hk
              subst hk
              exact infix_append_right (ih2 i Phase.reported h1 rfl) _
            · rw [get?_set_other _ _ _ _ hik] at hk
              exact infix_append_right (ih2 k p hk hd) _
      | releaseSem i h1 =>
          constructor
          · intro k j hk
            rcases eq_or_ne i k with rfl | hik
            · rw [get?_set_self h1] at hk
              exact absurd hk (by simp)
            · rw [get?_set_other _ _ _ _ hik] at hk
              exact ih1 k j hk
          · intro k p hk hd
            rcases eq_or_ne i k with rfl | hik
            · rw [get?_set_self h1] at hk
              injection hk with hk
              subst hk
              exact ih2 i Phase.loggedFin h1 rfl
            · rw [get?_set_other _ _ _ _ hik] at hk
              exact ih2 k p hk hd

/-- C8: in every reachable state, the report block of a worker that
has finished emitting is contiguous in the output stream — no line of
any other worker (diagnostic or block line) sits between its lines. -/
theorem c8_block_atomicity {K : Nat} {blen : Nat → Nat} {n : Nat} {s : SysState}
    (h : Reachable K blen n s) {i : Nat} {p : Phase} (hp : s.ws.get? i = some p)
    (hd : reportDone p = true) :
    (List.range (blen i)).map (OutLine.blockLine i) <:+: s.out :=
  (print_invariant h).2 i p hp hd

/-! A concrete run used as witness input for the concurrency theorems:
one worker, capacity 5, a two-line report block, executed to
completion. -/

/-- Block-length function of the demo witness run: every worker prints
a two-line block. -/
def blenDemo : Nat → Nat := fun _ => 2

/-- Final state of the demo witness run: the single worker is done,
the semaphore is back to 5, and the output holds the worker's
diagnostic lines around its contiguous block. -/
def demoFinal : SysState :=
  ⟨5, none, [Phase.done],
    [OutLine.diagWaiting 0, OutLine.diagAcquired 0, OutLine.blockLine 0 0,
      OutLine.blockLine 0 1, OutLine.diagFinished 0]⟩

theorem demo_reachable : Reachable 5 blenDemo 1 demoFinal := by
  have t0 : Reachable 5 blenDemo 1 (initState 5 1) := Reachable.refl
  have t1 := Reachable.tail t0 (Step.logWait _ 0 rfl rfl)
  have t2 := Reachable.tail t1 (Step.acquireSem _ 0 rfl (by decide))
  have t3 := Reachable.tail t2 (Step.logAcq _ 0 rfl rfl)
  have t4 := Reachable.tail t3 (Step.lockPrint _ 0 rfl rfl)
  have t5 := Reachable.tail t4 (Step.printLine _ 0 0 rfl rfl (by decide))
  have t6 := Reachable.tail t5 (Step.printLine _ 0 1 rfl rfl (by decide))
  have t7 := Reachable.tail t6 (Step.unlockPrint _ 0 rfl rfl)
  have t8 := Reachable.tail t7 (Step.logFin _ 0 rfl rfl)
  have t9 := Reachable.tail t8 (Step.releaseSem _ 0 rfl)
  exact t9

theorem c2_witness :
    demoFinal.ws.countP searchingOrReporting ≤ 5 ∧
    ∀ p, searchingOrReporting p = true → holdsPermit p = true :=
  c2_admission_bound demo_reachable

theorem c7_witness : demoFinal.sem = 5 :=
  c7_no_permit_leak demo_reachable (by decide)

theorem c8_witness :
    (List.range (blenDemo 0)).map (OutLine.blockLine 0) <:+: demoFinal.out :=
  c8_block_atomicity demo_reachable (rfl : demoFinal.ws.get? 0 = some Phase.done) rfl

end MovieRating
